import Mathlib

/-!
Verification development for the LAMMPS data writer
(mbuild/formats/lammpsdata.py, function write_lammpsdata).

The Python source is shallowly embedded below.  Floating-point values are
modelled as exact rationals; values produced by transcendental functions
(cos, sqrt, fractional powers) are modelled as exact reals.  String type
labels are Lean Strings; Python string comparison (by code point) is
modelled by a character-lexicographic order.  Python round(x, n) uses
round-half-even on ties; the embedding uses Mathlib round (half-up).  No
statement below depends on a tie, so the two agree on every value that is
reasoned about.
-/

namespace LammpsData

/-- Rounding helper modelling Python round(x, 3) on the rational model. -/
def round3 (q : ℚ) : ℚ := (round (q * 1000) : ℤ) / 1000

/-- Rounding helper modelling Python round(x, 1). -/
def round1 (q : ℚ) : ℚ := (round (q * 10) : ℤ) / 10

/-- Rounding helper modelling Python round(x, 4). -/
def round4 (q : ℚ) : ℚ := (round (q * 10000) : ℤ) / 10000

/-- Rounding helper modelling Python round(x, 8) applied to a real value. -/
noncomputable def round8r (x : ℝ) : ℝ := (round (x * 100000000) : ℤ) / 100000000

/-- Lexicographic strict order on character lists, modelling Python list/str
comparison (elementwise by code point). -/
def charsLt : List Char → List Char → Bool
  | _, [] => false
  | [], _ :: _ => true
  | a :: as, b :: bs => if a < b then true else if b < a then false else charsLt as bs

/-- Python string strict comparison a < b (code-point lexicographic). -/
def strLtB (a b : String) : Bool := charsLt a.data b.data

/-- Python tuple(sorted((a, b))) on two strings: the pair in nondecreasing
code-point-lexicographic order. -/
def sortPairLex (a b : String) : String × String :=
  if strLtB b a then (b, a) else (a, b)

/-! ## Canonical-type ID assignment (lines 173-181, 199-201, 205-215,
219-241, 259-261, 264-272 of lammpsdata.py)

Each category builds dict(enumerate(set(keys))) and inverts it, so the key
that the set enumerates at position x receives the integer ID x+1.  The
iteration order of a Python set is not a specified function of its
contents, so the embedding takes the enumeration (the order in which the
set yields the distinct keys) as an explicit parameter, constrained only
to be a duplicate-free listing of exactly the distinct keys. -/

/-- Test that a list u is one possible iteration order of set(keys): no
duplicates and exactly the members of keys. -/
def isEnumOf {K : Type} [DecidableEq K] (u keys : List K) : Bool :=
  (u.dedup == u) && u.all (fun k => keys.contains k) && keys.all (fun k => u.contains k)

/-- ID assigned to a canonical key, given the set-enumeration order u: the
key at position x of the enumeration gets ID x+1 (lines 173-177). -/
def assignIds {K : Type} [DecidableEq K] (u : List K) (k : K) : ℕ :=
  List.indexOf k u + 1

/-- Per-instance ID list: each instance looks up its canonical key
(lines 178-181). -/
def instanceIds {K : Type} [DecidableEq K] (u keys : List K) : List ℕ :=
  keys.map (assignIds u)

/-- Bundled choice of a set-iteration order for every key type, standing for
the unspecified enumeration order of Python set objects. -/
structure SetOracle : Type 1 where
  enum : {α : Type} → [inst : DecidableEq α] → List α → List α

/-- An oracle is well formed when each enumeration it returns lists the
distinct members of its input, in some order. -/
def goodOracle (o : SetOracle) : Prop :=
  ∀ {α : Type} [inst : DecidableEq α] (l : List α), isEnumOf (o.enum l) l = true

/-- One concrete well-formed oracle: first-occurrence order. -/
def dedupOracle : SetOracle := ⟨fun {α} [DecidableEq α] l => l.dedup⟩

/-! ## Topology data model (the fields of the parmed Structure that
write_lammpsdata reads).  Atom references inside bonded terms are modelled
by the atom index (parmed Atom equality is identity). -/

/-- An atom: type label, name, and per-atom numeric data. -/
structure LAtom where
  typeLabel : String
  name : String
  charge : ℚ
  mass : ℚ
  sigma : ℚ
  epsilon : ℚ
  x : ℚ
  y : ℚ
  z : ℚ
  deriving DecidableEq

/-- A bond with its two atom indices, the two atom type labels, and its
parameter term (k, req). -/
structure LBond where
  a1 : ℕ
  a2 : ℕ
  t1 : String
  t2 : String
  k : ℚ
  req : ℚ
  deriving DecidableEq

/-- An angle with its three atom indices, type labels, and parameter term
(k, theteq). -/
structure LAngle where
  a1 : ℕ
  a2 : ℕ
  a3 : ℕ
  t1 : String
  t2 : String
  t3 : String
  k : ℚ
  theteq : ℚ
  deriving DecidableEq

/-- A Urey-Bradley term: its two atom indices and parameter term (k, req). -/
structure LUrey where
  a1 : ℕ
  a2 : ℕ
  k : ℚ
  req : ℚ
  deriving DecidableEq

/-- A Ryckaert-Bellemans torsion: four atom indices, four type labels, six
coefficients and the two scaling factors. -/
structure LDihedral where
  a1 : ℕ
  a2 : ℕ
  a3 : ℕ
  a4 : ℕ
  t1 : String
  t2 : String
  t3 : String
  t4 : String
  c0 : ℚ
  c1 : ℚ
  c2 : ℚ
  c3 : ℚ
  c4 : ℚ
  c5 : ℚ
  scee : ℚ
  scnb : ℚ
  deriving DecidableEq

/-- One term of a CHARMM-style multi-term dihedral parameter list. -/
structure LCharmmTerm where
  phiK : ℚ
  per : ℚ
  phase : ℚ
  scee : ℚ
  scnb : ℚ
  deriving DecidableEq

/-- A CHARMM-style dihedral: four atom indices, four type labels, a list of
terms and the improper-geometry flag. -/
structure LCharmmDihedral where
  a1 : ℕ
  a2 : ℕ
  a3 : ℕ
  a4 : ℕ
  t1 : String
  t2 : String
  t3 : String
  t4 : String
  terms : List LCharmmTerm
  improperFlag : Bool
  deriving DecidableEq

/-- An improper: four atom indices, four type labels, parameter term
(psi_k, psi_eq). -/
structure LImproper where
  a1 : ℕ
  a2 : ℕ
  a3 : ℕ
  a4 : ℕ
  t1 : String
  t2 : String
  t3 : String
  t4 : String
  psiK : ℚ
  psiEq : ℚ
  deriving DecidableEq

/-- The slice of a parmed Structure that write_lammpsdata consumes.
nbfixTypes stands for ParameterSet.from_structure(structure).nbfix_types:
a keyed list of ((type label, type label), (rmin, well depth)) entries in
insertion order; hasNBFIX for structure.has_NBFIX(); bondTypeTableLen for
len(structure.bond_types). -/
structure LStructure where
  atoms : List LAtom
  bonds : List LBond
  angles : List LAngle
  ureyBradleys : List LUrey
  rbTorsions : List LDihedral
  charmmDihedrals : List LCharmmDihedral
  impropers : List LImproper
  boxL : ℚ × ℚ × ℚ
  boxA : ℚ × ℚ × ℚ
  bondTypeTableLen : ℕ
  hasNBFIX : Bool
  nbfixTypes : List ((String × String) × (ℚ × ℚ))
  combiningRule : String

/-! ## Canonical keys (lines 173-176, 184-197, 205-209, 219-229, 244-257,
264-267 of lammpsdata.py) -/

/-- Canonical bond key: (round(k,3), round(req,3), sorted type pair)
(lines 173-176). -/
def bondKey (b : LBond) : ℚ × ℚ × (String × String) :=
  (round3 b.k, round3 b.req, sortPairLex b.t1 b.t2)

/-- Canonical harmonic-angle key: (round(k,3), round(theteq,3), vertex type,
sorted end-type pair) (lines 205-209). -/
def angleKeyH (a : LAngle) : ℚ × ℚ × String × (String × String) :=
  (round3 a.k, round3 a.theteq, a.t2, sortPairLex a.t1 a.t3)

/-- Test from line 190: the Urey-Bradley term matches the angle when
(angle.atom1, angle.atom3) == (ub.atom1, ub.atom2), in that one fixed
order. -/
def ubMatch (a : LAngle) (ub : LUrey) : Bool :=
  (a.a1 == ub.a1) && (a.a3 == ub.a2)

/-- Stretch-bend parameters attached to an angle (lines 187-192): ub_k and
ub_req start at zero and are overwritten by every matching Urey-Bradley
term scanned in list order, so the last match wins and a miss leaves
(0, 0). -/
def ubParams (a : LAngle) (ubs : List LUrey) : ℚ × ℚ :=
  ubs.foldl (fun acc ub => if ubMatch a ub then (ub.k, ub.req) else acc) (0, 0)

/-- Canonical Urey-Bradley angle key (lines 193-197). -/
def angleKeyUB (ubs : List LUrey) (a : LAngle) : ℚ × ℚ × ℚ × ℚ × (String × String) :=
  (round3 a.k, round3 a.theteq, round3 (ubParams a ubs).1, round3 (ubParams a ubs).2,
    sortPairLex a.t1 a.t3)

/-- Canonical Ryckaert-Bellemans dihedral key fields (lines 219-229). -/
structure RBKey where
  c0 : ℚ
  c1 : ℚ
  c2 : ℚ
  c3 : ℚ
  c4 : ℚ
  c5 : ℚ
  scee : ℚ
  scnb : ℚ
  t1 : String
  t2 : String
  t3 : String
  t4 : String
  deriving DecidableEq

/-- Canonical Ryckaert-Bellemans dihedral key (lines 219-229). -/
def dihedralKeyRB (d : LDihedral) : RBKey :=
  ⟨round3 d.c0, round3 d.c1, round3 d.c2, round3 d.c3, round3 d.c4, round3 d.c5,
    round1 d.scee, round1 d.scnb, d.t1, d.t2, d.t3, d.t4⟩

/-- Canonical CHARMM multi-term dihedral key fields (lines 250-257). -/
structure CKey where
  phiK : ℚ
  per : ℤ
  phase : ℤ
  weight : ℚ
  scee : ℚ
  scnb : ℚ
  t1 : String
  t2 : String
  t3 : String
  t4 : String
  deriving DecidableEq

/-- Expansion of CHARMM dihedrals into one canonical key per term
(lines 244-257): dihedrals with improper geometry are skipped, the weight
is 1/len(terms) rounded to 4 places, periodicity and phase are rounded to
integers.  The input list stands for structure.dihedrals after the
structure.join_dihedrals() call at line 245 has merged duplicate
quadruples; that merge itself is not modelled. -/
def charmmDihedralKeys (ds : List LCharmmDihedral) : List CKey :=
  (ds.filter (fun d => !d.improperFlag)).flatMap (fun d =>
    d.terms.map (fun t =>
      ⟨round3 t.phiK, round t.per, round t.phase, round4 (1 / (d.terms.length : ℚ)),
        round1 t.scee, round1 t.scnb, d.t1, d.t2, d.t3, d.t4⟩))

/-- Canonical improper key (lines 264-267). -/
def improperKey (i : LImproper) : ℚ × ℚ × String × String × String × String :=
  (round3 i.psiK, round3 i.psiEq, i.t1, i.t2, i.t3, i.t4)

/-! ## Functional-form classifier (lines 121-143) -/

/-- Resolved style flags. -/
structure StyleFlags where
  useUB : Bool
  useRB : Bool
  useDih : Bool
  deriving DecidableEq

/-- Message of the atom-style rejection at lines 64-65 (sans the
interpolated style name). -/
def atomStyleMsg : String := "Atom style is invalid or is not currently supported"

/-- Message of the conflicting-dihedral-style rejection at lines 141-143. -/
def conflictMsg : String :=
  "Multiple dihedral styles detected, check your Forcefield XML and structure"

/-- Message of the combining-rule rejection at line 392. -/
def combiningMsg : String :=
  "Only lorentz and geometric combining rules are supported"

/-- Style detection and the conflicting-style check (lines 121-143): with
detection on, the flags are set from the presence of urey_bradleys,
rb_torsions and dihedrals; the conflict check rejects use_rb_torsions
together with use_dihedrals. -/
def detectStyles (detect : Bool) (nUrey nRB nDih : ℕ) (ub0 rb0 dih0 : Bool) :
    Except String StyleFlags :=
  let ub := if detect then decide (0 < nUrey) else ub0
  let rb := if detect then decide (0 < nRB) else rb0
  let dih := if detect then decide (0 < nDih) else dih0
  if rb && dih then
    .error conflictMsg
  else
    .ok ⟨ub, rb, dih⟩

/-! ## Emitted lines

Each constructor stands for one data row (or section keyword) written by
write_lammpsdata; decimal formatting, blank lines and pure comment rows are
abstracted away, and numeric payloads are carried exactly.  The OPLS
four-coefficient conversion applied when printing RB dihedral rows
(RB_to_OPLS, defined outside the embedded file) is not modelled: the RB
coefficient row carries the six canonical coefficients instead. -/

inductive Line
  | title
  | countLine (what : String) (n : ℕ)
  | typeCountLine (what : String) (n : ℕ)
  | loHi (dim : String) (lo hi : ℝ)
  | tiltLine (xy xz yz : ℝ)
  | sectionHeader (name : String)
  | massLine (tid : ℕ) (mass : ℚ) (label : String)
  | pairLine (tid : ℕ) (eps sigma : ℚ)
  | pairIJLine (t1 t2 : ℕ) (eps sigma : ℝ) (l1 l2 : String)
  | bondCoeffLine (tid : ℕ) (k req : ℚ) (l1 l2 : String)
  | angleCoeffLineUB (tid : ℕ) (k theteq ubk ubreq : ℚ)
  | angleCoeffLineH (tid : ℕ) (k theteq : ℚ) (l1 vertex l2 : String)
  | dihedralCoeffLineRB (tid : ℕ) (c0 c1 c2 c3 c4 c5 : ℚ) (l1 l2 l3 l4 : String)
  | dihedralCoeffLineC (tid : ℕ) (phiK : ℚ) (per phase : ℤ) (weight : ℚ)
  | improperCoeffLine (tid : ℕ) (psiK psiEq : ℚ)
  | atomLine (style : String) (idx tid : ℕ) (charge x y z : ℚ)
  | bondLine (i tid b1 b2 : ℕ)
  | angleLine (i tid b1 b2 b3 : ℕ)
  | dihedralLine (i tid b1 b2 b3 b4 : ℕ)
  | improperLine (i tid b1 b2 b3 b4 : ℕ)

/-! ## Box section (lines 74-75, 296-333)

The Box constructed at line 74 carries mins = (0,0,0) and
maxs = 0.1 * structure.box lengths; the writer multiplies both by 10
again, so the emitted extents run from 0 to the original lengths in
Angstrom.  (mbuild.Box itself lies outside the embedded file; its
mins/maxs convention is modelled from the spec, section 4.3, which fixes
only the unit scaling and is irrelevant to every property proved below.) -/

/-- Test modelling np.allclose(box.angles, [90, 90, 90]) with numpy default
tolerances rtol = 1e-5, atol = 1e-8: each angle x must satisfy
abs(x - 90) <= atol + rtol * 90. -/
def near90 (x : ℚ) : Bool := decide (|x - 90| ≤ 1 / 100000000 + 90 / 100000)

/-- Conjunction of near90 over the three box angles (line 297). -/
def allclose90 (angles : ℚ × ℚ × ℚ) : Bool :=
  near90 angles.1 && near90 angles.2.1 && near90 angles.2.2

/-- Degrees-to-radians conversion, np.radians (line 305). -/
noncomputable def radiansOf (x : ℚ) : ℝ := (x : ℝ) * Real.pi / 180

/-- The quantity whose square root the writer takes for lz at line 312:
c^2 - xz^2 - yz^2, computed from the box lengths (Angstrom) and angles
(degrees) exactly as lines 304-312 do.  When this value is negative,
np.sqrt returns NaN (with only a RuntimeWarning) and the writer keeps
going; Real.sqrt returns 0 there, so statements about the degenerate case
are made about this argument being negative rather than about the sqrt
value. -/
noncomputable def lzSqArg (lengths angles : ℚ × ℚ × ℚ) : ℝ :=
  let b : ℝ := (lengths.2.1 : ℝ)
  let c : ℝ := (lengths.2.2 : ℝ)
  let alpha := radiansOf angles.1
  let beta := radiansOf angles.2.1
  let gamma := radiansOf angles.2.2
  let xy := b * Real.cos gamma
  let xz := c * Real.cos beta
  let ly := Real.sqrt (b ^ 2 - xy ^ 2)
  let yz := (b * c * Real.cos alpha - xy * xz) / ly
  c ^ 2 - xz ^ 2 - yz ^ 2

/-- Box section of the output (lines 296-333): three lo/hi rows for an
(approximately) orthogonal box, else three widened lo/hi rows plus the
tilt row with factors xy, xz, yz. -/
noncomputable def boxSection (lengths angles : ℚ × ℚ × ℚ) : List Line :=
  if allclose90 angles then
    [Line.loHi "x" 0 (lengths.1 : ℝ),
     Line.loHi "y" 0 (lengths.2.1 : ℝ),
     Line.loHi "z" 0 (lengths.2.2 : ℝ)]
  else
    let a : ℝ := (lengths.1 : ℝ)
    let b : ℝ := (lengths.2.1 : ℝ)
    let c : ℝ := (lengths.2.2 : ℝ)
    let alpha := radiansOf angles.1
    let beta := radiansOf angles.2.1
    let gamma := radiansOf angles.2.2
    let lx := a
    let xy := b * Real.cos gamma
    let xz := c * Real.cos beta
    let ly := Real.sqrt (b ^ 2 - xy ^ 2)
    let yz := (b * c * Real.cos alpha - xy * xz) / ly
    let lz := Real.sqrt (c ^ 2 - xz ^ 2 - yz ^ 2)
    let xlo : ℝ := 0
    let ylo : ℝ := 0
    let zlo : ℝ := 0
    let xhi := xlo + lx
    let yhi := ylo + ly
    let zhi := zlo + lz
    [Line.loHi "x" (xlo + min (min 0 xy) (min xz (xy + xz)))
               (xhi + max (max 0 xy) (max xz (xy + xz))),
     Line.loHi "y" (ylo + min 0 yz) (yhi + max 0 yz),
     Line.loHi "z" zlo zhi,
     Line.tiltLine xy xz yz]

/-! ## Natural ordering of atom-type labels

Modelled from the spec: mbuild.utils.sorting.natural_sort is outside the
embedded file; section 4.2 of the spec defines it as a sort key in which
maximal numeric substrings compare as integers rather than
lexicographically, so that the label C2 sorts before C10.  A label is
split into alternating textual and numeric chunks which compare
elementwise. -/

inductive NChunk
  | str (t : List Char)
  | num (v : ℕ)
  deriving DecidableEq

/-- Appends one character to a chunk list under construction (kept in
reverse order), extending a trailing run of the same kind. -/
def pushChunk (acc : List NChunk) (c : Char) : List NChunk :=
  if c.isDigit then
    match acc with
    | NChunk.num v :: rest => NChunk.num (v * 10 + (c.toNat - 48)) :: rest
    | _ => NChunk.num (c.toNat - 48) :: acc
  else
    match acc with
    | NChunk.str t :: rest => NChunk.str (t ++ [c]) :: rest
    | _ => NChunk.str [c] :: acc

/-- Modelled from the spec: the natural-sort key of a label, a list of
alternating textual and numeric chunks. -/
def chunksOf (cs : List Char) : List NChunk := (cs.foldl pushChunk []).reverse

/-- Chunk comparison: numbers compare as integers, text compares
lexicographically, and a numeric chunk sorts before a textual one (the
empty text that Python re.split inserts before a leading number). -/
def chunkLt : NChunk → NChunk → Bool
  | NChunk.num a, NChunk.num b => a < b
  | NChunk.str a, NChunk.str b => charsLt a b
  | NChunk.num _, NChunk.str _ => true
  | NChunk.str _, NChunk.num _ => false

/-- Lexicographic strict order on chunk lists. -/
def chunkListLt : List NChunk → List NChunk → Bool
  | _, [] => false
  | [], _ :: _ => true
  | a :: as, b :: bs =>
    if chunkLt a b then true else if chunkLt b a then false else chunkListLt as bs

/-- Modelled from the spec: nonstrict natural order between labels. -/
def naturalLe (a b : String) : Bool := !chunkListLt (chunksOf b.data) (chunksOf a.data)

/-- The sorted list of distinct type labels (lines 113-114):
list(set(types)) sorted with key natural_sort, modelled by a stable
insertion sort under the natural order (Python list.sort is stable).
Labels whose natural keys tie would keep the unspecified set order; no
property below involves such a tie. -/
def uniqueTypesOf (types : List String) : List String :=
  List.insertionSort (fun a b => naturalLe a b = true) types.dedup

/-! ## NBFIX normalization and pair-coefficient derivation
(lines 336-350, 354-416) -/

/-- Python dict insertion: an existing key keeps its position and gets the
new value, a new key is appended. -/
def dictInsert {K V : Type} [BEq K] (l : List (K × V)) (k : K) (v : V) : List (K × V) :=
  if l.any (fun p => p.1 == k) then l.map (fun p => if p.1 == k then (k, v) else p)
  else l ++ [(k, v)]

/-- Python dict built from a pair list, last value winning per key. -/
def dictBuild {K V : Type} [BEq K] (pairs : List (K × V)) : List (K × V) :=
  pairs.foldl (fun acc p => dictInsert acc p.1 p.2) []

/-- Dict membership plus lookup. -/
def lookupPair {K V : Type} [BEq K] (table : List (K × V)) (key : K) : Option V :=
  (table.find? (fun p => p.1 == key)).map (fun p => p.2)

/-- Key normalization of the NBFIX table (lines 357-366): every key is
replaced by its lexicographically sorted version, the last write winning on
a collision (the code warns there and keeps going). -/
def nbfixNormalize (raw : List ((String × String) × (ℚ × ℚ))) :
    List ((String × String) × (ℚ × ℚ)) :=
  raw.foldl (fun acc kv => dictInsert acc (sortPairLex kv.1.1 kv.1.2) kv.2) []

/-- Python itertools.combinations_with_replacement(l, 2) in its order. -/
def combosWR {α : Type} : List α → List (α × α)
  | [] => []
  | x :: xs => (x, x) :: (xs.map (fun y => (x, y)) ++ combosWR xs)

/-- Value of the per-type dict built at lines 345-350 for a given type
label: the dicts are keyed by type ID, and since zip(types, values) is
scanned in atom order with overwriting, the stored value is the one of the
last atom bearing that label (0 when no atom does, a case that cannot
arise for a label drawn from the atoms). -/
def lastAtomValue (atoms : List LAtom) (f : LAtom → ℚ) (label : String) : ℚ :=
  atoms.foldl (fun acc a => if a.typeLabel == label then f a else acc) 0

/-- Pair coefficients for one combo (lines 370-394): an NBFIX hit converts
rmin to sigma by dividing by 2^(1/6) and takes the stored well depth as
epsilon; otherwise a self pair copies the per-type values, and a mixed
pair derives sigma by the declared combining rule and epsilon as the
geometric mean, any other rule failing.  Both entries are rounded to 8
decimal places, and the result is keyed by the two type IDs. -/
noncomputable def pairCoeffOf (rule : String)
    (nbfix : List ((String × String) × (ℚ × ℚ))) (uniq : List String)
    (sigmaOf epsOf : String → ℚ) (combo : String × String) :
    Except String ((ℕ × ℕ) × (ℝ × ℝ)) :=
  let t1 := List.indexOf combo.1 uniq + 1
  let t2 := List.indexOf combo.2 uniq + 1
  match lookupPair nbfix combo with
  | some rv =>
      .ok ((t1, t2), (round8r ((rv.1 : ℝ) / 2 ^ ((1 : ℝ) / 6)), round8r (rv.2 : ℝ)))
  | none =>
      if t1 = t2 then
        .ok ((t1, t2), (round8r (sigmaOf combo.1 : ℝ), round8r (epsOf combo.1 : ℝ)))
      else if rule = "lorentz" then
        .ok ((t1, t2),
          (round8r (((sigmaOf combo.1 : ℚ) + sigmaOf combo.2 : ℚ) * (0.5 : ℝ)),
           round8r ((((epsOf combo.1 : ℚ) * epsOf combo.2 : ℚ) : ℝ) ^ ((0.5 : ℝ)))))
      else if rule = "geometric" then
        .ok ((t1, t2),
          (round8r ((((sigmaOf combo.1 : ℚ) * sigmaOf combo.2 : ℚ) : ℝ) ^ ((0.5 : ℝ))),
           round8r ((((epsOf combo.1 : ℚ) * epsOf combo.2 : ℚ) : ℝ) ^ ((0.5 : ℝ)))))
      else
        .error combiningMsg

/-- Sequences a fallible computation over a list, first error winning. -/
def mapExcept {α β ε : Type} (f : α → Except ε β) : List α → Except ε (List β)
  | [] => .ok []
  | x :: xs => do
    let y ← f x
    let ys ← mapExcept f xs
    pure (y :: ys)

/-- The full coeffs table of the NBFIX branch (lines 369-394), one entry
per combination-with-replacement of the sorted unique types. -/
noncomputable def pairCoeffsAll (rule : String)
    (nbfix : List ((String × String) × (ℚ × ℚ))) (uniq : List String)
    (sigmaOf epsOf : String → ℚ) : Except String (List ((ℕ × ℕ) × (ℝ × ℝ))) :=
  mapExcept (pairCoeffOf rule nbfix uniq sigmaOf epsOf) (combosWR uniq)

/-- Bond type-ID list (lines 169-181): with an empty bond-type table every
bond gets type ID 1 (np.ones), else the IDs come from the canonical
bond-key table; the value written as the bond-type count in the header is
the number of distinct entries of this list. -/
def bondTypeIds (o : SetOracle) (s : LStructure) : List ℕ :=
  if s.bondTypeTableLen = 0 then List.replicate s.bonds.length 1
  else instanceIds (o.enum (s.bonds.map bondKey)) (s.bonds.map bondKey)

/-! ## The writer (write_lammpsdata, lines 17-523)

The result is the list of emitted rows; a raised exception is returned as
Except.error carrying the message together with the rows already written
to the (truncated) output file at raise time.  Console printing, the
NameError reachable when a bond coefficient section is requested with an
empty bond-type table, and the mbuild Box object are abstracted as
documented above. -/

/-- Pair and coefficient stage (lines 343-475): everything written between
the Masses section and the Atoms section, or the combining-rule error. -/
noncomputable def coeffSections (s : LStructure) (flags : StyleFlags)
    (nbfixInData : Bool) (types uniq : List String)
    (bondEnum : List (ℚ × ℚ × (String × String)))
    (angleEnumUB : List (ℚ × ℚ × ℚ × ℚ × (String × String)))
    (angleEnumH : List (ℚ × ℚ × String × (String × String)))
    (dihedralEnumRB : List RBKey)
    (dihedralEnumC : List CKey)
    (improperEnum : List (ℚ × ℚ × String × String × String × String)) :
    Except String (List Line) :=
  let sigmaOf := lastAtomValue s.atoms (fun a => a.sigma)
  let epsOf := lastAtomValue s.atoms (fun a => a.epsilon)
  let epsDict := dictBuild ((types.map (fun t => List.indexOf t uniq + 1)).zip
    (s.atoms.map (fun a => a.epsilon)))
  let sigmaDict := dictBuild ((types.map (fun t => List.indexOf t uniq + 1)).zip
    (s.atoms.map (fun a => a.sigma)))
  let pairRows : Except String (List Line) :=
    if s.hasNBFIX then
      match pairCoeffsAll s.combiningRule (nbfixNormalize s.nbfixTypes) uniq
          sigmaOf epsOf with
      | .error e => .error e
      | .ok coeffs =>
        if nbfixInData then
          .ok (Line.sectionHeader "PairIJ Coeffs" ::
            coeffs.map (fun c => Line.pairIJLine c.1.1 c.1.2 c.2.2 c.2.1
              (uniq.getD (c.1.1 - 1) "") (uniq.getD (c.1.2 - 1) "")))
        else
          .ok (Line.sectionHeader "Pair Coeffs" ::
            epsDict.map (fun p =>
              Line.pairLine p.1 p.2 ((lookupPair sigmaDict p.1).getD 0)))
    else
      .ok (Line.sectionHeader "Pair Coeffs" ::
        epsDict.map (fun p =>
          Line.pairLine p.1 p.2 ((lookupPair sigmaDict p.1).getD 0)))
  match pairRows with
  | .error e => .error e
  | .ok rows =>
    let bondRows :=
      if s.bonds.isEmpty || s.bondTypeTableLen = 0 then []
      else Line.sectionHeader "Bond Coeffs" ::
        bondEnum.map (fun key => Line.bondCoeffLine (assignIds bondEnum key)
          key.1 key.2.1 key.2.2.1 key.2.2.2)
    let angleRows :=
      if s.angles.isEmpty then []
      else if flags.useUB then
        Line.sectionHeader "Angle Coeffs" ::
          angleEnumUB.map (fun key => Line.angleCoeffLineUB (assignIds angleEnumUB key)
            key.1 key.2.1 key.2.2.1 key.2.2.2.1)
      else
        Line.sectionHeader "Angle Coeffs" ::
          angleEnumH.map (fun key => Line.angleCoeffLineH (assignIds angleEnumH key)
            key.1 key.2.1 key.2.2.2.1 key.2.2.1 key.2.2.2.2)
    let dihedralRows :=
      if flags.useRB && !s.rbTorsions.isEmpty then
        Line.sectionHeader "Dihedral Coeffs" ::
          dihedralEnumRB.map (fun key => Line.dihedralCoeffLineRB
            (assignIds dihedralEnumRB key) key.c0 key.c1 key.c2 key.c3 key.c4 key.c5
            key.t1 key.t2 key.t3 key.t4)
      else if flags.useDih && !s.charmmDihedrals.isEmpty then
        Line.sectionHeader "Dihedral Coeffs" ::
          dihedralEnumC.map (fun key => Line.dihedralCoeffLineC
            (assignIds dihedralEnumC key) key.phiK key.per key.phase key.weight)
      else []
    let improperRows :=
      if s.impropers.isEmpty then []
      else Line.sectionHeader "Improper Coeffs" ::
        improperEnum.map (fun key => Line.improperCoeffLine (assignIds improperEnum key)
          key.1 key.2.1)
    .ok (rows ++ bondRows ++ angleRows ++ dihedralRows ++ improperRows)

/-- The writer.  Arguments mirror the Python signature; the oracle supplies
the iteration order of every set the code enumerates. -/
noncomputable def writeLammpsdata (o : SetOracle) (s : LStructure) (atomStyle : String)
    (detect nbfixInData ub0 rb0 dih0 : Bool) : Except (String × List Line) (List Line) :=
  if !(["atomic", "charge", "molecular", "full"].contains atomStyle) then
    .error (atomStyleMsg, [])
  else
    let forcefield :=
      match s.atoms with
      | [] => true
      | a :: _ => a.typeLabel != ""
    let types := s.atoms.map (fun a => if forcefield then a.typeLabel else a.name)
    let uniq := uniqueTypesOf types
    match detectStyles detect s.ureyBradleys.length s.rbTorsions.length
        s.charmmDihedrals.length ub0 rb0 dih0 with
    | .error e => .error (e, [])
    | .ok flags =>
      let bonds := s.bonds.map (fun b => (b.a1 + 1, b.a2 + 1))
      let angles := s.angles.map (fun a => (a.a1 + 1, a.a2 + 1, a.a3 + 1))
      let dihedrals :=
        if flags.useRB then s.rbTorsions.map (fun d => (d.a1 + 1, d.a2 + 1, d.a3 + 1, d.a4 + 1))
        else if flags.useDih then
          s.charmmDihedrals.map (fun d => (d.a1 + 1, d.a2 + 1, d.a3 + 1, d.a4 + 1))
        else []
      let impropers := s.impropers.map (fun i => (i.a1 + 1, i.a2 + 1, i.a3 + 1, i.a4 + 1))
      let bondKeys := s.bonds.map bondKey
      let bondEnum := o.enum bondKeys
      let bondIds := bondTypeIds o s
      let angleKeysUB := s.angles.map (angleKeyUB s.ureyBradleys)
      let angleKeysH := s.angles.map angleKeyH
      let angleEnumUB := o.enum angleKeysUB
      let angleEnumH := o.enum angleKeysH
      let angleIds :=
        if flags.useUB then instanceIds angleEnumUB angleKeysUB
        else instanceIds angleEnumH angleKeysH
      let dihedralKeysRBs := s.rbTorsions.map dihedralKeyRB
      let dihedralKeysCs := charmmDihedralKeys s.charmmDihedrals
      let dihedralEnumRB := o.enum dihedralKeysRBs
      let dihedralEnumC := o.enum dihedralKeysCs
      let dihedralIds :=
        if flags.useRB then instanceIds dihedralEnumRB dihedralKeysRBs
        else instanceIds dihedralEnumC dihedralKeysCs
      let improperKeys := s.impropers.map improperKey
      let improperEnum := o.enum improperKeys
      let improperIds := instanceIds improperEnum improperKeys
      let bondedStyle := atomStyle == "full" || atomStyle == "molecular"
      let headerRows :=
        Line.title :: Line.countLine "atoms" s.atoms.length ::
        ((if bondedStyle then
            [Line.countLine "bonds" bonds.length,
             Line.countLine "angles" angles.length,
             Line.countLine "dihedrals" dihedrals.length,
             Line.countLine "impropers" impropers.length]
          else []) ++
         (Line.typeCountLine "atom" types.dedup.length ::
          (if bondedStyle then
            (if bonds.isEmpty then [] else
              [Line.typeCountLine "bond" bondIds.dedup.length]) ++
            (if angles.isEmpty then [] else
              [Line.typeCountLine "angle" angleIds.dedup.length]) ++
            (if dihedrals.isEmpty then [] else
              [Line.typeCountLine "dihedral" dihedralIds.dedup.length]) ++
            (if impropers.isEmpty then [] else
              [Line.typeCountLine "improper" improperIds.dedup.length])
          else [])))
      let boxRows := boxSection s.boxL s.boxA
      let massDict := dictBuild ((types.map (fun t => List.indexOf t uniq + 1)).zip
        (s.atoms.map (fun a => a.mass)))
      let massRows := Line.sectionHeader "Masses" ::
        massDict.map (fun p => Line.massLine p.1 p.2 (uniq.getD (p.1 - 1) ""))
      let coeffRes :=
        if forcefield then
          coeffSections s flags nbfixInData types uniq bondEnum angleEnumUB angleEnumH
            dihedralEnumRB dihedralEnumC improperEnum
        else .ok []
      match coeffRes with
      | .error e => .error (e, headerRows ++ boxRows ++ massRows)
      | .ok coeffRows =>
        let atomRows := Line.sectionHeader "Atoms" ::
          s.atoms.enum.map (fun p => Line.atomLine atomStyle (p.1 + 1)
            (List.indexOf (types.getD p.1 "") uniq + 1) p.2.charge p.2.x p.2.y p.2.z)
        let bondedRows :=
          if bondedStyle then
            (if bonds.isEmpty then [] else
              Line.sectionHeader "Bonds" ::
                bonds.enum.map (fun p => Line.bondLine (p.1 + 1) (bondIds.getD p.1 0)
                  p.2.1 p.2.2)) ++
            (if angles.isEmpty then [] else
              Line.sectionHeader "Angles" ::
                angles.enum.map (fun p => Line.angleLine (p.1 + 1) (angleIds.getD p.1 0)
                  p.2.1 p.2.2.1 p.2.2.2)) ++
            (if dihedrals.isEmpty then [] else
              Line.sectionHeader "Dihedrals" ::
                dihedrals.enum.map (fun p => Line.dihedralLine (p.1 + 1)
                  (dihedralIds.getD p.1 0) p.2.1 p.2.2.1 p.2.2.2.1 p.2.2.2.2)) ++
            (if impropers.isEmpty then [] else
              Line.sectionHeader "Impropers" ::
                impropers.enum.map (fun p => Line.improperLine (p.1 + 1)
                  (improperIds.getD p.1 0) p.2.2.2.1 p.2.2.1 p.2.1 p.2.2.2.2))
          else []
        .ok (headerRows ++ boxRows ++ massRows ++ coeffRows ++ atomRows ++ bondedRows)

/-- Rows present in the output file when the call returns, whether it
raised or not. -/
def linesOf {ε : Type} : Except (ε × List Line) (List Line) → List Line
  | .ok l => l
  | .error (_, l) => l

/-- True when the call completed without raising. -/
def exceptOk {ε α : Type} : Except ε α → Bool
  | .ok _ => true
  | .error _ => false

/-- Message of the exception a writer call raised, when it raised one. -/
def errMsgOf : Except (String × List Line) (List Line) → Option String
  | .ok _ => none
  | .error (m, _) => some m

/-- The properties the spec claims of the canonical-ID assignment of one
category, given the set-enumeration order u of the key list keys: IDs are
injective on the distinct keys, every instance ID lies in 1..N where N is
the number of distinct canonical keys, every ID in 1..N is hit, and the
number of distinct instance IDs (the value the header declares as the
type count, len(set(..._types))) equals N. -/
def CanonicalOk {K : Type} [DecidableEq K] (u keys : List K) : Prop :=
  (∀ k1 ∈ keys, ∀ k2 ∈ keys, assignIds u k1 = assignIds u k2 → k1 = k2) ∧
  (∀ i ∈ instanceIds u keys, 1 ≤ i ∧ i ≤ keys.dedup.length) ∧
  (∀ j : ℕ, 1 ≤ j → j ≤ keys.dedup.length → ∃ k ∈ keys, assignIds u k = j) ∧
  (instanceIds u keys).dedup.length = keys.dedup.length

/-! ## Concrete fixtures used in closed statements -/

/-- A bond whose canonical key carries the type pair (A, A). -/
def bondExA : LBond := ⟨0, 1, "A", "A", 1, 1⟩

/-- A bond whose canonical key carries the type pair (B, B). -/
def bondExB : LBond := ⟨0, 1, "B", "B", 1, 1⟩

/-- An atom fixture with the given type label. -/
def atomEx (t : String) : LAtom := ⟨t, t, 0, 1, 3, 2, 0, 0, 0⟩

/-- Structure with a degenerate triclinic box: lengths 10 Angstrom, angles
(180, 60, 60) degrees, for which c^2 - xz^2 - yz^2 = -400/3. -/
def degenStruct : LStructure :=
  ⟨[atomEx "A"], [], [], [], [], [], [], (10, 10, 10), (180, 60, 60), 0, false, [],
    "lorentz"⟩

/-- Structure with an unsupported combining rule and an NBFIX entry: the
writer reaches the combining-rule check on the cross pair (A, B). -/
def kongStruct : LStructure :=
  ⟨[atomEx "A", atomEx "B"], [], [], [], [], [], [], (10, 10, 10), (90, 90, 90), 0,
    true, [(("A", "A"), (2, 3))], "kong"⟩

/-- Structure carrying both a Ryckaert-Bellemans torsion and a CHARMM
dihedral. -/
def bothDihedralStruct : LStructure :=
  ⟨[atomEx "A"], [], [], [],
    [⟨0, 1, 2, 3, "A", "A", "A", "A", 0, 0, 0, 0, 0, 0, 1, 1⟩],
    [⟨0, 1, 2, 3, "A", "A", "A", "A", [⟨1, 1, 0, 1, 1⟩], false⟩],
    [], (10, 10, 10), (90, 90, 90), 0, false, [], "lorentz"⟩

/-- Structure with one bond and an empty bond-type table. -/
def untypedBondStruct : LStructure :=
  ⟨[atomEx "A"], [⟨0, 1, "A", "A", 1, 1⟩], [], [], [], [], [], (10, 10, 10),
    (90, 90, 90), 0, false, [], "lorentz"⟩

/-- An angle fixture between atoms 1, 2, 3. -/
def angleEx : LAngle := ⟨1, 2, 3, "A", "B", "C", 2, 5⟩

/-- A Urey-Bradley fixture matching angleEx only in reversed end order. -/
def ureyRev : LUrey := ⟨3, 1, 7, 9⟩

/-- A Urey-Bradley fixture matching angleEx in the order the code tests. -/
def ureyFwd : LUrey := ⟨1, 3, 7, 9⟩

/-- Example per-type sigma table with labels A and B. -/
def sigAB : String → ℚ := fun t => if t = "A" then 3.5 else 2.5

/-- Example per-type epsilon table with labels A and B. -/
def epsAB : String → ℚ := fun t => if t = "A" then 0.066 else 0.030

/-- Example per-type sigma table with labels C2 and C10. -/
def sigC : String → ℚ := fun t => if t = "C2" then 3.5 else 2.5

/-- Example per-type epsilon table with labels C2 and C10. -/
def epsC : String → ℚ := fun t => if t = "C2" then 0.066 else 0.030

/-! ## General facts about the canonical-ID assignment -/

theorem isEnumOf_iff {K : Type} [DecidableEq K] {u keys : List K} :
    isEnumOf u keys = true ↔ u.Nodup ∧ ∀ k : K, k ∈ u ↔ k ∈ keys := by
  simp only [isEnumOf, Bool.and_eq_true, beq_iff_eq, List.all_eq_true]
  constructor
  · rintro ⟨⟨hd, hsub⟩, hsup⟩
    refine ⟨List.dedup_eq_self.mp hd, fun k => ⟨fun hk => ?_, fun hk => ?_⟩⟩
    · simpa using hsub k hk
    · simpa using hsup k hk
  · rintro ⟨hnd, hmem⟩
    refine ⟨⟨List.dedup_eq_self.mpr hnd, fun k hk => ?_⟩, fun k hk => ?_⟩
    · simpa using (hmem k).mp hk
    · simpa using (hmem k).mpr hk

theorem goodOracle_dedup : goodOracle dedupOracle := by
  intro α inst l
  exact isEnumOf_iff.mpr ⟨l.nodup_dedup, fun _ => List.mem_dedup⟩

theorem canonicalOk_of_isEnum {K : Type} [DecidableEq K] {u keys : List K}
    (h : isEnumOf u keys = true) : CanonicalOk u keys := by
  obtain ⟨hnd, hmem⟩ := isEnumOf_iff.mp h
  have hlen : u.length = keys.dedup.length := by
    have h1 : u.toFinset = keys.toFinset := by
      ext a
      simp [List.mem_toFinset, hmem a]
    calc u.length = u.toFinset.card := (List.toFinset_card_of_nodup hnd).symm
      _ = keys.toFinset.card := by rw [h1]
      _ = keys.dedup.length := List.card_toFinset keys
  have hinj : ∀ k1 ∈ keys, ∀ k2 ∈ keys, assignIds u k1 = assignIds u k2 → k1 = k2 := by
    intro k1 h1 k2 h2 he
    have h1u : k1 ∈ u := (hmem k1).mpr h1
    have h2u : k2 ∈ u := (hmem k2).mpr h2
    have hidx : List.indexOf k1 u = List.indexOf k2 u := by
      simpa [assignIds] using he
    exact (List.indexOf_inj h1u h2u).mp hidx
  refine ⟨hinj, ?_, ?_, ?_⟩
  · intro i hi
    simp only [instanceIds, List.mem_map] at hi
    obtain ⟨k, hk, rfl⟩ := hi
    have hku : k ∈ u := (hmem k).mpr hk
    have hlti := List.indexOf_lt_length.mpr hku
    refine ⟨by simp [assignIds], ?_⟩
    simp only [assignIds]
    omega
  · intro j hj1 hj2
    have hlt : j - 1 < u.length := by omega
    refine ⟨u.get ⟨j - 1, hlt⟩, (hmem _).mp (List.get_mem u (j - 1) hlt), ?_⟩
    simp only [assignIds]
    rw [List.get_indexOf hnd]
    show j - 1 + 1 = j
    omega
  · have hEq : (instanceIds u keys).toFinset = keys.toFinset.image (assignIds u) := by
      ext i
      simp [instanceIds, List.mem_toFinset, List.mem_map, Finset.mem_image]
    have hcard : (keys.toFinset.image (assignIds u)).card = keys.toFinset.card := by
      apply Finset.card_image_of_injOn
      intro a ha b hb hab
      exact hinj a (List.mem_toFinset.mp ha) b (List.mem_toFinset.mp hb) hab
    calc (instanceIds u keys).dedup.length
        = (instanceIds u keys).toFinset.card := (List.card_toFinset _).symm
      _ = (keys.toFinset.image (assignIds u)).card := by rw [hEq]
      _ = keys.toFinset.card := hcard
      _ = keys.dedup.length := List.card_toFinset keys

/-- C2: for every interaction category, and any iteration order of the
key set, the ID assignment is an injection from the distinct canonical
keys onto 1..N, every instance resolves to an ID in that range, and the
number of distinct instance IDs (the value written as the N-types header
count) equals the number of distinct canonical keys. -/
theorem type_tables_canonical (o : SetOracle) (ho : goodOracle o) (s : LStructure) :
    CanonicalOk (o.enum (s.bonds.map bondKey)) (s.bonds.map bondKey) ∧
    CanonicalOk (o.enum (s.angles.map angleKeyH)) (s.angles.map angleKeyH) ∧
    CanonicalOk (o.enum (s.angles.map (angleKeyUB s.ureyBradleys)))
      (s.angles.map (angleKeyUB s.ureyBradleys)) ∧
    CanonicalOk (o.enum (s.rbTorsions.map dihedralKeyRB))
      (s.rbTorsions.map dihedralKeyRB) ∧
    CanonicalOk (o.enum (charmmDihedralKeys s.charmmDihedrals))
      (charmmDihedralKeys s.charmmDihedrals) ∧
    CanonicalOk (o.enum (s.impropers.map improperKey)) (s.impropers.map improperKey) :=
  ⟨canonicalOk_of_isEnum (ho _), canonicalOk_of_isEnum (ho _),
    canonicalOk_of_isEnum (ho _), canonicalOk_of_isEnum (ho _),
    canonicalOk_of_isEnum (ho _), canonicalOk_of_isEnum (ho _)⟩

/-- Witness for C2 at a concrete oracle and structure. -/
theorem type_tables_canonical_ex :
    CanonicalOk (dedupOracle.enum (untypedBondStruct.bonds.map bondKey))
      (untypedBondStruct.bonds.map bondKey) ∧
    CanonicalOk (dedupOracle.enum (untypedBondStruct.angles.map angleKeyH))
      (untypedBondStruct.angles.map angleKeyH) ∧
    CanonicalOk (dedupOracle.enum
        (untypedBondStruct.angles.map (angleKeyUB untypedBondStruct.ureyBradleys)))
      (untypedBondStruct.angles.map (angleKeyUB untypedBondStruct.ureyBradleys)) ∧
    CanonicalOk (dedupOracle.enum (untypedBondStruct.rbTorsions.map dihedralKeyRB))
      (untypedBondStruct.rbTorsions.map dihedralKeyRB) ∧
    CanonicalOk (dedupOracle.enum (charmmDihedralKeys untypedBondStruct.charmmDihedrals))
      (charmmDihedralKeys untypedBondStruct.charmmDihedrals) ∧
    CanonicalOk (dedupOracle.enum (untypedBondStruct.impropers.map improperKey))
      (untypedBondStruct.impropers.map improperKey) :=
  type_tables_canonical dedupOracle goodOracle_dedup untypedBondStruct

/-- C1: the ID assignment read off a set enumeration is not a function of
the key set: two legitimate iteration orders of the same two-element bond
key set assign different IDs to the same canonical key, so the emitted
file is not determined by the input (Python set iteration order varies
across processes under hash randomization). -/
theorem set_order_changes_ids :
    isEnumOf [bondKey bondExA, bondKey bondExB] [bondKey bondExA, bondKey bondExB]
      = true ∧
    isEnumOf [bondKey bondExB, bondKey bondExA] [bondKey bondExA, bondKey bondExB]
      = true ∧
    assignIds [bondKey bondExA, bondKey bondExB] (bondKey bondExA) = 1 ∧
    assignIds [bondKey bondExB, bondKey bondExA] (bondKey bondExA) = 2 := by
  have hne : bondKey bondExA ≠ bondKey bondExB := by
    simp [bondKey, bondExA, bondExB, sortPairLex, strLtB, charsLt]
  refine ⟨?_, ?_, ?_, ?_⟩
  · exact isEnumOf_iff.mpr ⟨by simp [hne], fun k => Iff.rfl⟩
  · exact isEnumOf_iff.mpr ⟨by simp [Ne.symm hne], fun k => by simp; tauto⟩
  · simp [assignIds]
  · simp [assignIds, List.indexOf_cons_self, List.indexOf_cons_ne _ (Ne.symm hne)]

/-- C10: with a nonempty bond list and an empty bond-type table, every
bond record carries type ID 1 and the header declares exactly one bond
type (the number of distinct entries of the ID list). -/
theorem empty_bond_table_ids (o : SetOracle) (s : LStructure)
    (hb : s.bonds ≠ []) (ht : s.bondTypeTableLen = 0) :
    (∀ i ∈ bondTypeIds o s, i = 1) ∧ (bondTypeIds o s).dedup.length = 1 := by
  have hrep : bondTypeIds o s = List.replicate s.bonds.length 1 := by
    simp [bondTypeIds, ht]
  rw [hrep]
  constructor
  · intro i hi
    exact List.eq_of_mem_replicate hi
  · have hlen : s.bonds.length ≠ 0 := by
      simpa [List.length_eq_zero] using hb
    rw [List.replicate_dedup hlen]
    rfl

/-- Witness for C10 at a concrete structure with one untyped bond. -/
theorem empty_bond_table_ids_ex :
    (∀ i ∈ bondTypeIds dedupOracle untypedBondStruct, i = 1) ∧
    (bondTypeIds dedupOracle untypedBondStruct).dedup.length = 1 :=
  empty_bond_table_ids dedupOracle untypedBondStruct (by simp [untypedBondStruct]) rfl

/-! ## Urey-Bradley matching -/

theorem ubFoldl_no_match (a : LAngle) (l : List LUrey)
    (h : ∀ ub ∈ l, ubMatch a ub = false) (acc : ℚ × ℚ) :
    l.foldl (fun acc ub => if ubMatch a ub then (ub.k, ub.req) else acc) acc = acc := by
  induction l generalizing acc with
  | nil => rfl
  | cons x xs ih =>
    have hx := h x (List.mem_cons_self x xs)
    simp only [List.foldl_cons, hx, Bool.false_eq_true, if_false]
    exact ih (fun ub hub => h ub (List.mem_cons_of_mem x hub)) acc

theorem round3_zero : round3 0 = 0 := by
  simp [round3]

theorem ubParams_no_match (a : LAngle) (ubs : List LUrey)
    (h : ∀ ub ∈ ubs, ubMatch a ub = false) : ubParams a ubs = (0, 0) :=
  ubFoldl_no_match a ubs h (0, 0)

theorem ubParams_last_match (a : LAngle) (l1 : List LUrey) (ub : LUrey) (l2 : List LUrey)
    (hm : ubMatch a ub = true) (h2 : ∀ ub2 ∈ l2, ubMatch a ub2 = false) :
    ubParams a (l1 ++ ub :: l2) = (ub.k, ub.req) := by
  unfold ubParams
  rw [List.foldl_append, List.foldl_cons, hm]
  simp only [if_true]
  exact ubFoldl_no_match a l2 h2 _

/-- C9: under the Urey-Bradley style, the canonical angle key carries the
stretch-bend k and equilibrium length of the term whose end atoms equal
(angle.atom1, angle.atom3) in exactly that order (the last such term in
list order when several match), and zeros when no term matches in that
order; a term listing the same two atoms in reversed order does not
match, as the concrete conjunct shows. -/
theorem urey_bradley_key_matching (a : LAngle) (ubs : List LUrey) :
    ((∀ ub ∈ ubs, ubMatch a ub = false) →
      angleKeyUB ubs a = (round3 a.k, round3 a.theteq, 0, 0, sortPairLex a.t1 a.t3)) ∧
    (∀ l1 ub l2, ubs = l1 ++ ub :: l2 → ubMatch a ub = true →
      (∀ ub2 ∈ l2, ubMatch a ub2 = false) →
      angleKeyUB ubs a =
        (round3 a.k, round3 a.theteq, round3 ub.k, round3 ub.req,
          sortPairLex a.t1 a.t3)) ∧
    ubMatch angleEx ureyRev = false ∧ ubMatch angleEx ureyFwd = true ∧
    angleKeyUB [ureyRev] angleEx =
      (round3 angleEx.k, round3 angleEx.theteq, 0, 0,
        sortPairLex angleEx.t1 angleEx.t3) ∧
    angleKeyUB [ureyFwd] angleEx =
      (round3 angleEx.k, round3 angleEx.theteq, round3 ureyFwd.k, round3 ureyFwd.req,
        sortPairLex angleEx.t1 angleEx.t3) := by
  have hrev : ubMatch angleEx ureyRev = false := by decide
  have hfwd : ubMatch angleEx ureyFwd = true := by decide
  refine ⟨?_, ?_, hrev, hfwd, ?_, ?_⟩
  · intro h
    rw [angleKeyUB, ubParams_no_match a ubs h]
    simp [round3_zero]
  · intro l1 ub l2 hsplit hm h2
    subst hsplit
    rw [angleKeyUB, ubParams_last_match a l1 ub l2 hm h2]
  · rw [angleKeyUB, ubParams_no_match angleEx [ureyRev] (by simpa using hrev)]
    simp [round3_zero]
  · have hp : ubParams angleEx [ureyFwd] = (ureyFwd.k, ureyFwd.req) :=
      ubParams_last_match angleEx [] ureyFwd [] hfwd (by intro x hx; cases hx)
    rw [angleKeyUB, hp]

/-! ## Conflicting dihedral styles -/

theorem detectStyles_auto_conflict (nUrey nRB nDih : ℕ) (u r d : Bool)
    (hrb : 0 < nRB) (hdih : 0 < nDih) :
    detectStyles true nUrey nRB nDih u r d = .error conflictMsg := by
  simp [detectStyles, hrb, hdih]

/-- C7: with auto-detection on, a topology carrying both
Ryckaert-Bellemans torsion data and CHARMM multi-term dihedral data makes
the writer fail with the conflicting-style error before any output. -/
theorem conflicting_dihedral_styles_error (o : SetOracle) (s : LStructure)
    (style : String) (nb u r d : Bool)
    (hstyle : (["atomic", "charge", "molecular", "full"].contains style) = true)
    (hrb : s.rbTorsions ≠ []) (hdih : s.charmmDihedrals ≠ []) :
    writeLammpsdata o s style true nb u r d = .error (conflictMsg, []) := by
  have h1 : detectStyles true s.ureyBradleys.length s.rbTorsions.length
      s.charmmDihedrals.length u r d = .error conflictMsg :=
    detectStyles_auto_conflict _ _ _ _ _ _
      (List.length_pos.mpr hrb) (List.length_pos.mpr hdih)
  rw [writeLammpsdata, hstyle]
  simp [h1]

/-- Witness for C7: a structure with one RB torsion and one CHARMM
dihedral under auto-detection. -/
theorem conflicting_dihedral_styles_error_ex :
    writeLammpsdata dedupOracle bothDihedralStruct "full" true true false false false =
      .error (conflictMsg, []) :=
  conflicting_dihedral_styles_error dedupOracle bothDihedralStruct "full" true false
    false false (by decide) (by simp [bothDihedralStruct]) (by simp [bothDihedralStruct])

/-! ## Pair coefficients: mixing rules and NBFIX overrides -/

theorem round8r_close (x : ℝ) : |round8r x - x| ≤ 1 / 200000000 := by
  have h := abs_sub_round (x * 100000000)
  rw [abs_sub_comm] at h
  have : round8r x - x = ((round (x * 100000000) : ℝ) - x * 100000000) / 100000000 := by
    unfold round8r
    ring
  rw [this, abs_div]
  rw [abs_of_pos (by norm_num : (0:ℝ) < 100000000)]
  linarith

theorem round8r_exact (x : ℝ) (n : ℤ) (h : x * 100000000 = (n : ℝ)) : round8r x = x := by
  unfold round8r
  rw [h, round_intCast, ← h]
  field_simp

theorem indexOf_ne_of_mem {c1 c2 : String} {uniq : List String}
    (h1 : c1 ∈ uniq) (h2 : c2 ∈ uniq) (hne : c1 ≠ c2) :
    List.indexOf c1 uniq + 1 ≠ List.indexOf c2 uniq + 1 := by
  intro h
  exact hne ((List.indexOf_inj h1 h2).mp (by omega))

theorem sqrt00198_bounds :
    (0.04449 : ℝ) ≤ Real.sqrt 0.00198 ∧ Real.sqrt 0.00198 ≤ 0.0445 := by
  constructor
  · rw [show (0.04449 : ℝ) = Real.sqrt (0.04449 ^ 2) from
      (Real.sqrt_sq (by norm_num)).symm]
    exact Real.sqrt_le_sqrt (by norm_num)
  · rw [show (0.0445 : ℝ) = Real.sqrt (0.0445 ^ 2) from
      (Real.sqrt_sq (by norm_num)).symm]
    exact Real.sqrt_le_sqrt (by norm_num)

theorem rpow_half_eq_sqrt (p : ℝ) : p ^ ((0.5 : ℝ)) = Real.sqrt p := by
  rw [Real.sqrt_eq_rpow]
  norm_num

theorem pairCoeff_mixing (nbfix : List ((String × String) × (ℚ × ℚ)))
    (uniq : List String) (sOf eOf : String → ℚ) (c1 c2 : String)
    (hnone : lookupPair nbfix (c1, c2) = none) (h1 : c1 ∈ uniq) (h2 : c2 ∈ uniq)
    (hne : c1 ≠ c2) :
    (pairCoeffOf "lorentz" nbfix uniq sOf eOf (c1, c2) =
      .ok ((List.indexOf c1 uniq + 1, List.indexOf c2 uniq + 1),
        (round8r (((sOf c1 : ℝ) + (sOf c2 : ℝ)) / 2),
         round8r (Real.sqrt ((eOf c1 : ℝ) * (eOf c2 : ℝ)))))) ∧
    (pairCoeffOf "geometric" nbfix uniq sOf eOf (c1, c2) =
      .ok ((List.indexOf c1 uniq + 1, List.indexOf c2 uniq + 1),
        (round8r (Real.sqrt ((sOf c1 : ℝ) * (sOf c2 : ℝ))),
         round8r (Real.sqrt ((eOf c1 : ℝ) * (eOf c2 : ℝ)))))) := by
  have hidx := indexOf_ne_of_mem h1 h2 hne
  have hsum : ((sOf c1 + sOf c2 : ℚ) : ℝ) * (0.5 : ℝ) =
      ((sOf c1 : ℝ) + (sOf c2 : ℝ)) / 2 := by
    push_cast
    ring
  have hprod : ∀ f : String → ℚ, (((f c1 * f c2 : ℚ)) : ℝ) ^ ((0.5 : ℝ)) =
      Real.sqrt ((f c1 : ℝ) * (f c2 : ℝ)) := by
    intro f
    rw [rpow_half_eq_sqrt]
    push_cast
    ring_nf
  constructor
  · simp only [pairCoeffOf, hnone, hidx, if_false, if_true, reduceIte]
    rw [hsum, hprod]
  · simp only [pairCoeffOf, hnone, hidx, if_false, reduceIte]
    rw [hprod, hprod]
    rw [if_neg (by decide : ¬("geometric" = "lorentz"))]

theorem pairCoeff_nbfix (rule : String) (nbfix : List ((String × String) × (ℚ × ℚ)))
    (uniq : List String) (sOf eOf : String → ℚ) (combo : String × String)
    (rmin eps : ℚ) (hsome : lookupPair nbfix combo = some (rmin, eps)) :
    pairCoeffOf rule nbfix uniq sOf eOf combo =
      .ok ((List.indexOf combo.1 uniq + 1, List.indexOf combo.2 uniq + 1),
        (round8r ((rmin : ℝ) / 2 ^ ((1 : ℝ) / 6)), round8r ((eps : ℝ)))) := by
  simp only [pairCoeffOf, hsome]

/-- C5: with no explicit override, a cross pair of distinct types derives
sigma as the arithmetic mean under the lorentz rule and as the geometric
mean under the geometric rule, and epsilon as the geometric mean under
both; concretely, sigma 3.5 and 2.5 with epsilon 0.066 and 0.030 under
lorentz give sigma exactly 3 and epsilon within 1/10000 of 0.0445. -/
theorem mixing_rule_values :
    (∀ (nbfix : List ((String × String) × (ℚ × ℚ))) (uniq : List String)
      (sOf eOf : String → ℚ) (c1 c2 : String),
      lookupPair nbfix (c1, c2) = none → c1 ∈ uniq → c2 ∈ uniq → c1 ≠ c2 →
      pairCoeffOf "lorentz" nbfix uniq sOf eOf (c1, c2) =
        .ok ((List.indexOf c1 uniq + 1, List.indexOf c2 uniq + 1),
          (round8r (((sOf c1 : ℝ) + (sOf c2 : ℝ)) / 2),
           round8r (Real.sqrt ((eOf c1 : ℝ) * (eOf c2 : ℝ)))))) ∧
    (∀ (nbfix : List ((String × String) × (ℚ × ℚ))) (uniq : List String)
      (sOf eOf : String → ℚ) (c1 c2 : String),
      lookupPair nbfix (c1, c2) = none → c1 ∈ uniq → c2 ∈ uniq → c1 ≠ c2 →
      pairCoeffOf "geometric" nbfix uniq sOf eOf (c1, c2) =
        .ok ((List.indexOf c1 uniq + 1, List.indexOf c2 uniq + 1),
          (round8r (Real.sqrt ((sOf c1 : ℝ) * (sOf c2 : ℝ))),
           round8r (Real.sqrt ((eOf c1 : ℝ) * (eOf c2 : ℝ)))))) ∧
    (∃ e : ℝ,
      pairCoeffOf "lorentz" [] ["A", "B"] sigAB epsAB ("A", "B") =
        .ok ((1, 2), ((3 : ℝ), e)) ∧ |e - 0.0445| ≤ 1 / 10000) := by
  refine ⟨fun nb u s e c1 c2 hn h1 h2 hne => (pairCoeff_mixing nb u s e c1 c2 hn h1 h2 hne).1,
    fun nb u s e c1 c2 hn h1 h2 hne => (pairCoeff_mixing nb u s e c1 c2 hn h1 h2 hne).2, ?_⟩
  have hmain := (pairCoeff_mixing [] ["A", "B"] sigAB epsAB "A" "B" rfl (by decide)
    (by decide) (by decide)).1
  have hA : List.indexOf "A" ["A", "B"] = 0 := by decide
  have hB : List.indexOf "B" ["A", "B"] = 1 := by decide
  have hsig : sigAB "A" = 3.5 ∧ sigAB "B" = 2.5 ∧ epsAB "A" = 0.066 ∧
      epsAB "B" = 0.030 := by
    refine ⟨rfl, by simp [sigAB], rfl, by simp [epsAB]⟩
  refine ⟨round8r (Real.sqrt (((0.066 : ℚ) : ℝ) * ((0.030 : ℚ) : ℝ))), ?_, ?_⟩
  · rw [hmain, hA, hB, hsig.1, hsig.2.1, hsig.2.2.1, hsig.2.2.2]
    have hs : (((3.5 : ℚ) : ℝ) + ((2.5 : ℚ) : ℝ)) / 2 = 3 := by
      push_cast
      norm_num
    rw [hs, round8r_exact 3 300000000 (by norm_num)]
  · have hcast : ((0.066 : ℚ) : ℝ) * ((0.030 : ℚ) : ℝ) = 0.00198 := by
      push_cast
      norm_num
    rw [hcast]
    obtain ⟨hl, hr⟩ := sqrt00198_bounds
    obtain ⟨ha, hb⟩ := abs_le.mp (round8r_close (Real.sqrt 0.00198))
    rw [abs_le]
    constructor <;> linarith

theorem sixth_root_two_facts :
    0 < (2 : ℝ) ^ ((1 : ℝ) / 6) ∧ ((2 : ℝ) ^ ((1 : ℝ) / 6)) ^ (6 : ℕ) = 2 := by
  refine ⟨Real.rpow_pos_of_pos (by norm_num) _, ?_⟩
  rw [← Real.rpow_natCast ((2 : ℝ) ^ ((1 : ℝ) / 6)) 6,
    ← Real.rpow_mul (by norm_num : (0 : ℝ) ≤ 2)]
  norm_num

theorem rmin_conv_bounds :
    (1.06905 : ℝ) ≤ 1.2 / (2 : ℝ) ^ ((1 : ℝ) / 6) ∧
    1.2 / (2 : ℝ) ^ ((1 : ℝ) / 6) ≤ 1.0691 := by
  obtain ⟨hpos, hpow⟩ := sixth_root_two_facts
  constructor
  · rw [le_div_iff₀ hpos]
    by_contra hcon
    push_neg at hcon
    have h6 : (1.2 : ℝ) ^ (6 : ℕ) < (1.06905 * (2 : ℝ) ^ ((1 : ℝ) / 6)) ^ (6 : ℕ) :=
      pow_lt_pow_left₀ hcon (by norm_num) (by norm_num)
    rw [mul_pow, hpow] at h6
    norm_num at h6
  · rw [div_le_iff₀ hpos]
    by_contra hcon
    push_neg at hcon
    have h6 : (1.0691 * (2 : ℝ) ^ ((1 : ℝ) / 6)) ^ (6 : ℕ) < (1.2 : ℝ) ^ (6 : ℕ) :=
      pow_lt_pow_left₀ hcon (by positivity) (by norm_num)
    rw [mul_pow, hpow] at h6
    norm_num at h6

/-- C6 (as amended): a combo whose key is found in the normalized NBFIX
table gets sigma = rmin / 2^(1/6) and epsilon = the stored well depth
(rounding to 8 places leaves the concrete values 2.1 and
1.2 / 2^(1/6) ~ 1.0691 intact), and a combo not found gets the
combining-rule values; a pair has its override found only when the
lexicographically sorted key equals the natural-sort-ordered combo. -/
theorem nbfix_override_values :
    (∀ (rule : String) (nbfix : List ((String × String) × (ℚ × ℚ)))
      (uniq : List String) (sOf eOf : String → ℚ) (combo : String × String)
      (rmin eps : ℚ), lookupPair nbfix combo = some (rmin, eps) →
      pairCoeffOf rule nbfix uniq sOf eOf combo =
        .ok ((List.indexOf combo.1 uniq + 1, List.indexOf combo.2 uniq + 1),
          (round8r ((rmin : ℝ) / 2 ^ ((1 : ℝ) / 6)), round8r ((eps : ℝ))))) ∧
    (∃ sg : ℝ,
      pairCoeffOf "lorentz" [(("A", "B"), (1.2, 2.1))] ["A", "B"] sigAB epsAB
          ("A", "B") =
        .ok ((1, 2), (sg, (2.1 : ℝ))) ∧ |sg - 1.0691| ≤ 1 / 10000) ∧
    (∀ (nbfix : List ((String × String) × (ℚ × ℚ))) (uniq : List String)
      (sOf eOf : String → ℚ) (c1 c2 : String),
      lookupPair nbfix (c1, c2) = none → c1 ∈ uniq → c2 ∈ uniq → c1 ≠ c2 →
      pairCoeffOf "lorentz" nbfix uniq sOf eOf (c1, c2) =
        .ok ((List.indexOf c1 uniq + 1, List.indexOf c2 uniq + 1),
          (round8r (((sOf c1 : ℝ) + (sOf c2 : ℝ)) / 2),
           round8r (Real.sqrt ((eOf c1 : ℝ) * (eOf c2 : ℝ)))))) := by
  refine ⟨pairCoeff_nbfix, ?_,
    fun nb u s e c1 c2 hn h1 h2 hne => (pairCoeff_mixing nb u s e c1 c2 hn h1 h2 hne).1⟩
  have hsome : lookupPair [(("A", "B"), ((1.2 : ℚ), (2.1 : ℚ)))] ("A", "B") =
      some (1.2, 2.1) := rfl
  have hmain := pairCoeff_nbfix "lorentz" [(("A", "B"), ((1.2 : ℚ), (2.1 : ℚ)))]
    ["A", "B"] sigAB epsAB ("A", "B") 1.2 2.1 hsome
  have hA : List.indexOf "A" ["A", "B"] = 0 := by decide
  have hB : List.indexOf "B" ["A", "B"] = 1 := by decide
  have heps : round8r (((2.1 : ℚ) : ℝ)) = (2.1 : ℝ) := by
    rw [round8r_exact (((2.1 : ℚ) : ℝ)) 210000000 (by push_cast; norm_num)]
    push_cast
    norm_num
  refine ⟨round8r (((1.2 : ℚ) : ℝ) / 2 ^ ((1 : ℝ) / 6)), ?_, ?_⟩
  · rw [hmain, hA, hB, heps]
  · have hcast : ((1.2 : ℚ) : ℝ) = 1.2 := by norm_num
    rw [hcast]
    obtain ⟨hl, hr⟩ := rmin_conv_bounds
    obtain ⟨ha, hb⟩ := abs_le.mp (round8r_close ((1.2 : ℝ) / 2 ^ ((1 : ℝ) / 6)))
    rw [abs_le]
    constructor <;> linarith

/-- C6 counterexample: the cross pair of types C2 and C10 has an explicit
override in the raw NBFIX table, yet the writer derives its coefficients
by the combining rule: the combo iterated is ordered by natural sort
(C2 before C10) while the stored key was sorted lexicographically
(C10 before C2), so the lookup misses and the emitted epsilon is not the
override well depth 2.1. -/
theorem nbfix_override_missed :
    (("C2", "C10") ∈ combosWR (uniqueTypesOf ["C2", "C10"])) ∧
    sortPairLex "C2" "C10" = ("C10", "C2") ∧
    lookupPair (nbfixNormalize [(("C2", "C10"), ((1.2 : ℚ), (2.1 : ℚ)))])
      ("C2", "C10") = none ∧
    (∃ sg e : ℝ,
      pairCoeffOf "lorentz" (nbfixNormalize [(("C2", "C10"), ((1.2 : ℚ), (2.1 : ℚ)))])
          (uniqueTypesOf ["C2", "C10"]) sigC epsC ("C2", "C10") =
        .ok ((1, 2), (sg, e)) ∧ e ≠ (2.1 : ℝ)) := by
  have huniq : uniqueTypesOf ["C2", "C10"] = ["C2", "C10"] := by decide
  have hnone : lookupPair (nbfixNormalize [(("C2", "C10"), ((1.2 : ℚ), (2.1 : ℚ)))])
      ("C2", "C10") = none := rfl
  refine ⟨by decide, by decide, hnone, ?_⟩
  have hmain := (pairCoeff_mixing
    (nbfixNormalize [(("C2", "C10"), ((1.2 : ℚ), (2.1 : ℚ)))])
    (uniqueTypesOf ["C2", "C10"]) sigC epsC "C2" "C10" hnone
    (by rw [huniq]; decide) (by rw [huniq]; decide) (by decide)).1
  have hC2 : List.indexOf "C2" (uniqueTypesOf ["C2", "C10"]) = 0 := by
    rw [huniq]
    decide
  have hC10 : List.indexOf "C10" (uniqueTypesOf ["C2", "C10"]) = 1 := by
    rw [huniq]
    decide
  refine ⟨round8r (((sigC "C2" : ℝ) + (sigC "C10" : ℝ)) / 2),
    round8r (Real.sqrt ((epsC "C2" : ℝ) * (epsC "C10" : ℝ))), ?_, ?_⟩
  · rw [hmain, hC2, hC10]
  · have he1 : epsC "C2" = 0.066 := rfl
    have he2 : epsC "C10" = 0.030 := by
      simp [epsC]
    rw [he1, he2]
    have hcast : ((0.066 : ℚ) : ℝ) * ((0.030 : ℚ) : ℝ) = 0.00198 := by
      push_cast
      norm_num
    rw [hcast]
    obtain ⟨hl, hr⟩ := sqrt00198_bounds
    obtain ⟨ha, hb⟩ := abs_le.mp (round8r_close (Real.sqrt 0.00198))
    intro hcontra
    rw [hcontra] at hb
    linarith

/-! ## Box section -/

/-- C8 (as amended): a box that passes the allclose-to-90 test produces
exactly the three plain lo/hi rows, and a box that fails it produces the
three widened lo/hi rows plus the tilt row, with the tilt factors given by
the claimed formulas; the z bounds are not widened. -/
theorem box_section_shape (lengths angles : ℚ × ℚ × ℚ) :
    (allclose90 angles = true →
      boxSection lengths angles =
        [Line.loHi "x" 0 ((lengths.1 : ℝ)), Line.loHi "y" 0 ((lengths.2.1 : ℝ)),
         Line.loHi "z" 0 ((lengths.2.2 : ℝ))]) ∧
    (allclose90 angles = false →
      ∃ xy xz ly yz lz : ℝ,
        xy = (lengths.2.1 : ℝ) * Real.cos (radiansOf angles.2.2) ∧
        xz = (lengths.2.2 : ℝ) * Real.cos (radiansOf angles.2.1) ∧
        ly = Real.sqrt ((lengths.2.1 : ℝ) ^ 2 - xy ^ 2) ∧
        yz = ((lengths.2.1 : ℝ) * (lengths.2.2 : ℝ) * Real.cos (radiansOf angles.1)
          - xy * xz) / ly ∧
        lz = Real.sqrt ((lengths.2.2 : ℝ) ^ 2 - xz ^ 2 - yz ^ 2) ∧
        boxSection lengths angles =
          [Line.loHi "x" (0 + min (min 0 xy) (min xz (xy + xz)))
            (0 + (lengths.1 : ℝ) + max (max 0 xy) (max xz (xy + xz))),
           Line.loHi "y" (0 + min 0 yz) (0 + ly + max 0 yz),
           Line.loHi "z" 0 (0 + lz),
           Line.tiltLine xy xz yz]) := by
  constructor
  · intro h
    simp only [boxSection, h, reduceIte]
  · intro h
    simp only [boxSection, h, Bool.false_eq_true, if_false]
    exact ⟨_, _, _, _, _, rfl, rfl, rfl, rfl, rfl, rfl⟩

/-- C8 counterexample: the angle 90.0005 differs from 90, yet the box
(1, 1, 1) with angles (90.0005, 90, 90) passes the allclose test and is
emitted as an orthogonal box: three lo/hi rows and no tilt row. -/
theorem near_ninety_box_not_tilted :
    ((90.0005 : ℚ) ≠ 90) ∧
    allclose90 ((90.0005 : ℚ), (90 : ℚ), (90 : ℚ)) = true ∧
    boxSection ((1 : ℚ), (1 : ℚ), (1 : ℚ)) ((90.0005 : ℚ), (90 : ℚ), (90 : ℚ)) =
      [Line.loHi "x" 0 1, Line.loHi "y" 0 1, Line.loHi "z" 0 1] ∧
    (∀ x y z : ℝ, Line.tiltLine x y z ∉
      boxSection ((1 : ℚ), (1 : ℚ), (1 : ℚ)) ((90.0005 : ℚ), (90 : ℚ), (90 : ℚ))) := by
  have hq : (90.0005 : ℚ) ≠ 90 := by norm_num
  have hac : allclose90 ((90.0005 : ℚ), (90 : ℚ), (90 : ℚ)) = true := by
    simp only [allclose90, near90, Bool.and_eq_true, decide_eq_true_eq]
    norm_num
    rw [abs_of_pos (show (0 : ℚ) < 1 / 2000 by norm_num)]
    norm_num
  have hbox : boxSection ((1 : ℚ), (1 : ℚ), (1 : ℚ)) ((90.0005 : ℚ), (90 : ℚ), (90 : ℚ)) =
      [Line.loHi "x" 0 1, Line.loHi "y" 0 1, Line.loHi "z" 0 1] := by
    simp only [boxSection, hac, reduceIte]
    norm_num
  refine ⟨hq, hac, hbox, ?_⟩
  intro x y z
  rw [hbox]
  simp

/-! ## Degenerate triclinic cell -/

theorem lzSqArg_degenerate : lzSqArg (10, 10, 10) (180, 60, 60) < 0 := by
  have h180 : radiansOf 180 = Real.pi := by
    unfold radiansOf
    push_cast
    ring
  have h60 : radiansOf 60 = Real.pi / 3 := by
    unfold radiansOf
    push_cast
    ring
  have key : lzSqArg (10, 10, 10) (180, 60, 60) =
      10 ^ 2 - 5 ^ 2 - ((10 * 10 * (-1) - 5 * 5) / Real.sqrt 75) ^ 2 := by
    unfold lzSqArg
    simp only [h180, h60, Real.cos_pi, Real.cos_pi_div_three]
    norm_num
  rw [key]
  have h75 : (0 : ℝ) < Real.sqrt 75 := Real.sqrt_pos.mpr (by norm_num)
  have hsq : (Real.sqrt 75) ^ 2 = 75 := Real.sq_sqrt (by norm_num)
  have hyz : ((10 * 10 * (-1 : ℝ) - 5 * 5) / Real.sqrt 75) ^ 2 = 15625 / 75 := by
    rw [div_pow, hsq]
    norm_num
  rw [hyz]
  norm_num

theorem writer_ok_of_no_nbfix (o : SetOracle) (s : LStructure) (style : String)
    (detect nb u r d : Bool) (flags : StyleFlags)
    (hstyle : (["atomic", "charge", "molecular", "full"].contains style) = true)
    (hdet : detectStyles detect s.ureyBradleys.length s.rbTorsions.length
      s.charmmDihedrals.length u r d = .ok flags)
    (hnb : s.hasNBFIX = false) :
    exceptOk (writeLammpsdata o s style detect nb u r d) = true ∧
    Line.sectionHeader "Masses" ∈
      linesOf (writeLammpsdata o s style detect nb u r d) ∧
    Line.sectionHeader "Atoms" ∈
      linesOf (writeLammpsdata o s style detect nb u r d) := by
  simp only [writeLammpsdata, hstyle, Bool.not_true, reduceIte, hdet, coeffSections,
    hnb, Bool.false_eq_true, if_false]
  by_cases hff : (match s.atoms with
    | [] => true
    | a :: _ => a.typeLabel != "") = true
  · simp only [hff, reduceIte, exceptOk, linesOf]
    simp [List.mem_append]
  · simp only [Bool.not_eq_true] at hff
    simp only [hff, Bool.false_eq_true, if_false, exceptOk, linesOf]
    simp [List.mem_append]

/-- C4: on the degenerate triclinic box with lengths 10 Angstrom and
angles (180, 60, 60), the quantity under the square root for lz is
negative (np.sqrt returns NaN there with only a RuntimeWarning), the box
is not treated as orthogonal, and the writer raises no error at all: it
completes and the Masses and Atoms sections are still written, contrary
to the claimed geometry failure before those sections. -/
theorem degenerate_box_written_not_raised :
    lzSqArg (10, 10, 10) (180, 60, 60) < 0 ∧
    allclose90 ((180 : ℚ), (60 : ℚ), (60 : ℚ)) = false ∧
    exceptOk (writeLammpsdata dedupOracle degenStruct "full" true true false false false)
      = true ∧
    Line.sectionHeader "Masses" ∈
      linesOf (writeLammpsdata dedupOracle degenStruct "full" true true false false false) ∧
    Line.sectionHeader "Atoms" ∈
      linesOf (writeLammpsdata dedupOracle degenStruct "full" true true false false false)
    := by
  have hdet : detectStyles true degenStruct.ureyBradleys.length
      degenStruct.rbTorsions.length degenStruct.charmmDihedrals.length
      false false false = .ok ⟨false, false, false⟩ := rfl
  have hmain := writer_ok_of_no_nbfix dedupOracle degenStruct "full" true true
    false false false ⟨false, false, false⟩ (by decide) hdet rfl
  have hac : allclose90 ((180 : ℚ), (60 : ℚ), (60 : ℚ)) = false := by
    simp only [allclose90, near90]
    norm_num
  exact ⟨lzSqArg_degenerate, hac, hmain.1, hmain.2.1, hmain.2.2⟩

/-! ## Error timing -/

theorem detectStyles_error_eq {detect : Bool} {a b c : ℕ} {u r d : Bool} {e : String}
    (h : detectStyles detect a b c u r d = .error e) : e = conflictMsg := by
  unfold detectStyles at h
  split at h <;> dsimp only at h <;> split at h <;> simp_all

theorem mapExcept_error {α β ε : Type} (f : α → Except ε β) (l : List α) (e : ε)
    (h : mapExcept f l = .error e) : ∃ x ∈ l, f x = .error e := by
  induction l with
  | nil => exact absurd h (by simp [mapExcept])
  | cons x xs ih =>
    simp only [mapExcept, bind, Except.bind] at h
    cases hx : f x with
    | error e2 =>
      rw [hx] at h
      simp only [Except.error.injEq] at h
      exact ⟨x, List.mem_cons_self x xs, by rw [hx, h]⟩
    | ok y =>
      rw [hx] at h
      cases hxs : mapExcept f xs with
      | error e2 =>
        rw [hxs] at h
        simp only [Except.error.injEq] at h
        obtain ⟨z, hz, hfz⟩ := ih (by rw [hxs, h])
        exact ⟨z, List.mem_cons_of_mem x hz, hfz⟩
      | ok ys =>
        rw [hxs] at h
        simp [pure, Except.pure] at h

/-- C3 (as amended): the atom-style and conflicting-dihedral-style
validation errors are raised with no output written, while the
unsupported-combining-rule error is raised only after the header, box and
Masses sections are already in the file. -/
theorem validation_error_timing (o : SetOracle) (s : LStructure) (style : String)
    (detect nb u r d : Bool) :
    ((["atomic", "charge", "molecular", "full"].contains style) = false →
      writeLammpsdata o s style detect nb u r d = .error (atomStyleMsg, [])) ∧
    (∀ e : String, (["atomic", "charge", "molecular", "full"].contains style) = true →
      detectStyles detect s.ureyBradleys.length s.rbTorsions.length
        s.charmmDihedrals.length u r d = .error e →
      writeLammpsdata o s style detect nb u r d = .error (e, [])) ∧
    (∀ (msg : String) (w : List Line),
      writeLammpsdata o s style detect nb u r d = .error (msg, w) →
      msg = combiningMsg →
      w ≠ [] ∧ Line.title ∈ w ∧ Line.sectionHeader "Masses" ∈ w) := by
  refine ⟨?_, ?_, ?_⟩
  · intro h
    simp only [writeLammpsdata, h, Bool.not_false, reduceIte]
  · intro e hstyle hdet
    simp only [writeLammpsdata, hstyle, Bool.not_true, Bool.false_eq_true, if_false,
      reduceIte, hdet]
  · intro msg w hw hmsg
    by_cases hstyle : (["atomic", "charge", "molecular", "full"].contains style) = true
    · cases hdet : detectStyles detect s.ureyBradleys.length s.rbTorsions.length
        s.charmmDihedrals.length u r d with
      | error e =>
        have hred : writeLammpsdata o s style detect nb u r d = .error (e, []) := by
          simp only [writeLammpsdata, hstyle, Bool.not_true, Bool.false_eq_true, if_false,
      reduceIte, hdet]
        rw [hred] at hw
        simp only [Except.error.injEq, Prod.mk.injEq] at hw
        rw [hmsg] at hw
        have := detectStyles_error_eq hdet
        rw [this] at hw
        exact absurd hw.1.symm (by decide)
      | ok flags =>
        simp only [writeLammpsdata, hstyle, Bool.not_true, Bool.false_eq_true, if_false,
      reduceIte, hdet] at hw
        by_cases hff : (match s.atoms with
          | [] => true
          | a :: _ => a.typeLabel != "") = true
        · simp only [hff, reduceIte] at hw
          split at hw
          · simp only [Except.error.injEq, Prod.mk.injEq] at hw
            obtain ⟨_, hwl⟩ := hw
            subst hwl
            refine ⟨by simp, by simp, ?_⟩
            simp [List.mem_append]
          · simp at hw
        · simp only [Bool.not_eq_true] at hff
          simp only [hff, Bool.false_eq_true, if_false] at hw
          simp at hw
    · simp only [Bool.not_eq_true] at hstyle
      have hred : writeLammpsdata o s style detect nb u r d =
          .error (atomStyleMsg, []) := by
        simp only [writeLammpsdata, hstyle, Bool.not_false, reduceIte]
      rw [hred] at hw
      simp only [Except.error.injEq, Prod.mk.injEq] at hw
      rw [hmsg] at hw
      exact absurd hw.1.symm (by decide)

/-- C3 counterexample: the writer invoked on a structure with an NBFIX
entry and the unsupported combining rule kong raises the combining-rule
error with a nonempty partial file that already holds the Masses section,
refuting the zero-bytes-on-every-ValidationError claim. -/
theorem combining_rule_error_partial_output :
    errMsgOf (writeLammpsdata dedupOracle kongStruct "full" false true false false false)
      = some combiningMsg ∧
    linesOf (writeLammpsdata dedupOracle kongStruct "full" false true false false false)
      ≠ [] ∧
    Line.sectionHeader "Masses" ∈
      linesOf (writeLammpsdata dedupOracle kongStruct "full" false true false false
        false) := by
  have hdet0 : detectStyles false 0 0 0 false false false = .ok ⟨false, false, false⟩ :=
    rfl
  have huniq : uniqueTypesOf ["A", "B"] = ["A", "B"] := by decide
  have hbox : allclose90 ((90 : ℚ), (90 : ℚ), (90 : ℚ)) = true := by
    simp only [allclose90, near90, Bool.and_eq_true, decide_eq_true_eq]
    norm_num
  have hlookAB : lookupPair (nbfixNormalize [(("A", "A"), ((2 : ℚ), (3 : ℚ)))])
      ("A", "B") = none := rfl
  have hlookAA : lookupPair (nbfixNormalize [(("A", "A"), ((2 : ℚ), (3 : ℚ)))])
      ("A", "A") = some ((2 : ℚ), (3 : ℚ)) := rfl
  have hlookBB : lookupPair (nbfixNormalize [(("A", "A"), ((2 : ℚ), (3 : ℚ)))])
      ("B", "B") = none := rfl
  have hcombos : combosWR ["A", "B"] = [("A", "A"), ("A", "B"), ("B", "B")] := rfl
  have hiA : List.indexOf "A" ["A", "B"] = 0 := by decide
  have hiB : List.indexOf "B" ["A", "B"] = 1 := by decide
  refine ⟨?_, ?_, ?_⟩ <;>
    simp [writeLammpsdata, coeffSections, kongStruct, atomEx, hdet0, huniq, hbox,
      hlookAB, hlookAA, hlookBB, hcombos, hiA, hiB, pairCoeffsAll, mapExcept,
      pairCoeffOf, boxSection, bind, Except.bind, pure, Except.pure, errMsgOf,
      linesOf, List.mem_append]

end LammpsData
